import Mathlib

/-!
Shallow embedding of the `uff` configuration compiler (src/parser.rs,
src/config.rs, src/main.rs).

External collaborators are modelled as parameters:
* the `kdl` crate's text-to-document parsing is external, so the parser model
  starts from a `KdlDocument` value (the repository's own code begins at
  `parse_menu_from_nodes`);
* filesystem enumeration for icon search (`walkdir`), the SHA-256 digest
  (`sha2`), binary encode/decode (`bitcode`) and environment variables are
  abstracted into environment records.

All paths are modelled as strings (Rust `PathBuf::push`/`display` on the
paths built here is plain string concatenation with `/`, and
`set_extension` is modelled faithfully below).
-/

set_option maxHeartbeats 1000000

/-- A source span: byte offset plus length (mirrors `miette::SourceSpan`). -/
structure Span where
  offset : Nat
  len : Nat
deriving DecidableEq, Repr

/-- A positioned diagnostic: the primary label's span and the message text
(mirrors the `miette!` diagnostics built in src/parser.rs; the label text such
as "remove this" is folded into `label`). -/
structure ParseErr where
  span : Span
  label : String
  msg : String
deriving DecidableEq, Repr

/-- A KDL entry value: the repository only distinguishes strings from
everything else (`entry.value().as_string()`). -/
inductive KdlValue where
  | str (s : String)
  | other
deriving DecidableEq, Repr

/-- A KDL entry: optional parameter name (with its span), value, span. -/
structure KdlEntry where
  name : Option (String × Span)
  value : KdlValue
  span : Span
deriving DecidableEq, Repr

mutual
inductive KdlDocument where
  | mk (nodes : List KdlNode) (span : Span)
inductive KdlNode where
  | mk (name : String) (nameSpan : Span) (entries : List KdlEntry)
       (children : Option KdlDocument) (span : Span)
end

def KdlDocument.nodes : KdlDocument → List KdlNode
  | .mk ns _ => ns

def KdlDocument.span : KdlDocument → Span
  | .mk _ s => s

def KdlNode.name : KdlNode → String
  | .mk n _ _ _ _ => n

def KdlNode.nameSpan : KdlNode → Span
  | .mk _ s _ _ _ => s

def KdlNode.entries : KdlNode → List KdlEntry
  | .mk _ _ es _ _ => es

def KdlNode.children : KdlNode → Option KdlDocument
  | .mk _ _ _ c _ => c

def KdlNode.span : KdlNode → Span
  | .mk _ _ _ _ s => s

/-- AST: `Program` from src/parser.rs. -/
structure Program where
  command : List String
deriving DecidableEq, Repr

mutual
/-- AST node `Menu` from src/parser.rs. -/
inductive Menu where
  | mk (fuzzel_args : List String) (fuzzel_config : List (String × String))
       (icon_dirs : List String) (items : List Item)
/-- AST `Item` from src/parser.rs. -/
inductive Item where
  | mk (name : String) (icon : Option String) (contents : ItemContents)
/-- AST `ItemContents` from src/parser.rs. -/
inductive ItemContents where
  | menu (m : Menu)
  | program (p : Program)
end

def Menu.fuzzel_args : Menu → List String
  | .mk a _ _ _ => a

def Menu.fuzzel_config : Menu → List (String × String)
  | .mk _ c _ _ => c

def Menu.icon_dirs : Menu → List String
  | .mk _ _ d _ => d

def Menu.items : Menu → List Item
  | .mk _ _ _ i => i

def Item.name : Item → String
  | .mk n _ _ => n

def Item.icon : Item → Option String
  | .mk _ i _ => i

def Item.contents : Item → ItemContents
  | .mk _ _ c => c

/-- `no_parameters` (src/parser.rs:56): error on the first named entry. -/
def no_parameters (node : KdlNode) : Except ParseErr Unit :=
  match node.entries.find? (fun e => e.name.isSome) with
  | some e =>
    match e.name with
    | some (_, nspan) =>
      .error ⟨nspan, "remove this name",
        node.name ++ " should not have any named parameters"⟩
    | none => .ok ()
  | none => .ok ()

/-- `no_arguments` (src/parser.rs:72). -/
def no_arguments (node : KdlNode) : Except ParseErr Unit :=
  match h : node.entries with
  | [] => .ok ()
  | first :: _ =>
    let last := (node.entries.getLast (by simp [h])).span
    .error ⟨⟨first.span.offset, last.offset + last.len - first.span.offset⟩,
      "these", node.name ++ " should not have any arguments"⟩

/-- `no_children` (src/parser.rs:91). -/
def no_children (node : KdlNode) : Except ParseErr Unit :=
  match node.children with
  | none => .ok ()
  | some ch =>
    let lbl := if ch.nodes.length < 2 then "remove this" else "remove these"
    .error ⟨ch.span, lbl, node.name ++ " should not have any children"⟩

/-- `one_argument` (src/parser.rs:110). -/
def one_argument (node : KdlNode) : Except ParseErr String :=
  if h : node.entries.length = 1 then
    match (node.entries.head (by intro hn; simp [hn] at h)).value with
    | .str s => .ok s
    | .other =>
      .error ⟨(node.entries.head (by intro hn; simp [hn] at h)).span, "this",
        "argument should be a string"⟩
  else
    match h2 : node.entries with
    | [] =>
      .error ⟨⟨node.nameSpan.offset + node.nameSpan.len, 0⟩, "here",
        node.name ++ " should have exactly one argument"⟩
    | _ :: rest =>
      let lbl := if node.entries.length < 3 then "remove this" else "remove these"
      let sp :=
        match rest with
        | [] => ⟨0, 0⟩  -- unreachable: length ≠ 1 and nonempty means ≥ 2 entries
        | second :: _ =>
          let last := (node.entries.getLast (by simp [h2])).span
          (⟨second.span.offset, last.offset + last.len - second.span.offset⟩ : Span)
      .error ⟨sp, lbl, node.name ++ " should have exactly one argument"⟩

/-- `many_arguments` (src/parser.rs:153). -/
def many_arguments (node : KdlNode) : Except ParseErr (List String) :=
  match node.entries with
  | [] =>
    .error ⟨⟨node.nameSpan.offset + node.nameSpan.len, 0⟩, "here",
      node.name ++ " should have arguments"⟩
  | es =>
    go es
where
  go : List KdlEntry → Except ParseErr (List String)
  | [] => .ok []
  | e :: rest =>
    match e.value with
    | .str s => do
      let tail ← go rest
      .ok (s :: tail)
    | .other => .error ⟨e.span, "this", "argument should be a string"⟩

/-- The `children(node)` helper's error (src/parser.rs:184); the successful
case is matched structurally at call sites for termination. -/
def missing_children_error (node : KdlNode) : ParseErr :=
  let after_entries :=
    match node.entries.getLast? with
    | none => node.nameSpan.offset + node.nameSpan.len
    | some last => last.span.offset + last.span.len
  ⟨⟨after_entries, 0⟩, "here", node.name ++ " should have children"⟩

/-- The body of the `fuzzel-config` child loop (src/parser.rs:225):
each child is a bare key with exactly one unnamed string argument. -/
def parse_config_kvs : List KdlNode → Except ParseErr (List (String × String))
  | [] => .ok []
  | kv :: rest => do
    let value ← one_argument kv
    no_parameters kv
    let tail ← parse_config_kvs rest
    .ok ((kv.name, value) :: tail)

/-- The icon-collecting loop of `parse_item_from_nodes` (src/parser.rs:316):
last `icon` child wins, each is checked in order. -/
def parse_item_icon : List KdlNode → Option String → Except ParseErr (Option String)
  | [], acc => .ok acc
  | n :: rest, acc =>
    if n.name = "icon" then do
      let i ← one_argument n
      no_parameters n
      no_children n
      parse_item_icon rest (some i)
    else
      parse_item_icon rest acc

/-- The `command` accumulation loop of `parse_program_from_nodes`
(src/parser.rs:276): `command` replaces (last wins), `icon` is skipped,
anything else is a hard error with the node's span. -/
def parse_program_go : List KdlNode → List String → Except ParseErr (List String)
  | [], acc => .ok acc
  | n :: rest, acc =>
    if n.name = "command" then do
      let cmd ← many_arguments n
      no_parameters n
      no_children n
      parse_program_go rest cmd
    else if n.name = "icon" then
      parse_program_go rest acc
    else
      .error ⟨n.span, "this", "unexpected node in program: " ++ n.name⟩

/-- `parse_program_from_nodes` (src/parser.rs:273). -/
def parse_program_from_nodes (doc : KdlDocument) : Except ParseErr Program := do
  let command ← parse_program_go doc.nodes []
  if command.isEmpty then
    .error ⟨doc.span, "here", "program should have a command"⟩
  else
    .ok ⟨command⟩

mutual
/-- `parse_menu_from_nodes` (src/parser.rs:203). `home` abstracts
`config::home()` (the `~`-expansion target). -/
def parse_menu_from_nodes (home : String) (doc : KdlDocument) : Except ParseErr Menu :=
  match doc with
  | .mk nodes _ => parse_menu_go home nodes [] [] [] []
termination_by (sizeOf doc, 0)

/-- The node loop of `parse_menu_from_nodes`, threading the four
accumulators (redefinition warnings are log-only side effects; the
last-wins replacement semantics are kept). -/
def parse_menu_go (home : String) :
    List KdlNode → List String → List (String × String) → List String →
    List Item → Except ParseErr Menu
  | [], fa, fc, idirs, its => .ok (.mk fa fc idirs its)
  | n :: rest, fa, fc, idirs, its =>
    match _hn : n with
    | .mk nm nmSpan entries children span =>
      if nm = "fuzzel-args" then do
        let fa' ← many_arguments n
        no_parameters n
        no_children n
        parse_menu_go home rest fa' fc idirs its
      else if nm = "fuzzel-config" then
        match children with
        | none => .error (missing_children_error n)
        | some ch => do
          let fc' ← parse_config_kvs ch.nodes
          no_arguments n
          parse_menu_go home rest fa fc' idirs its
      else if nm = "icon-dir" then do
        let path_str ← one_argument n
        let path := path_str.replace "~" home
        -- `path.is_absolute()` only emits a warning (log side effect)
        no_parameters n
        no_children n
        parse_menu_go home rest fa fc (idirs ++ [path]) its
      else if nm = "menu" ∨ nm = "program" then
        match children with
        | none => .error (missing_children_error n)
        | some ch => do
          let name ← one_argument n
          let item ← parse_item_from_nodes home nm name ch
          no_parameters n
          parse_menu_go home rest fa fc idirs (its ++ [item])
      else if nm = "icon" then
        -- already parsed by parse_item_from_nodes (src/parser.rs:251)
        parse_menu_go home rest fa fc idirs its
      else
        .error ⟨span, "this", "unexpected node in menu: " ++ nm⟩
termination_by ns _ _ _ _ => (sizeOf ns, 1)

/-- `parse_item_from_nodes` (src/parser.rs:313); `kind` is `"menu"` or
`"program"` at every call site (the Rust code marks other kinds
`unreachable!`, here they fall into the program branch). -/
def parse_item_from_nodes (home : String) (kind : String) (name : String)
    (doc : KdlDocument) : Except ParseErr Item := do
  let icon ← parse_item_icon doc.nodes none
  let contents ←
    if kind = "menu" then do
      let m ← parse_menu_from_nodes home doc
      pure (ItemContents.menu m)
    else do
      let p ← parse_program_from_nodes doc
      pure (ItemContents.program p)
  .ok (.mk name icon contents)
termination_by (sizeOf doc, 1)
end

/-- `ComputedProgram` (src/config.rs:56). -/
structure ComputedProgram where
  command : List String
deriving DecidableEq, Repr

/-- `ComputedMenu` (src/config.rs:49); the input byte buffer is modelled as a
string (the bytes written into it are UTF-8 text). -/
structure ComputedMenu where
  args : List String
  input : String
  items_offset : Nat
deriving DecidableEq, Repr

/-- `ComputedItem` (src/config.rs:43). -/
inductive ComputedItem where
  | menu (m : ComputedMenu)
  | program (p : ComputedProgram)
deriving DecidableEq, Repr

/-- `ComputedConfig` (src/config.rs:35); `hash` holds the first 8 bytes of
the SHA-256 digest of the raw config file. -/
structure ComputedConfig where
  hash : List Nat
  initial_menu : ComputedMenu
  items : List ComputedItem
deriving DecidableEq, Repr

/-- `InheritanceFrame` (src/config.rs:77). -/
structure InheritanceFrame where
  icon_dirs : List String
  fuzzel_config_id : Option Nat
deriving DecidableEq, Repr

/-- One entry of a recursive directory walk (`WalkDir`), with the
`file_stem` and `extension` components computed by Rust's std (external
collaborators, abstracted as data). -/
structure FsEntry where
  path : String
  stem : Option String
  ext : Option String
deriving DecidableEq, Repr

/-- The external world read by src/config.rs: the filesystem walk used for
icon search, the home directory, the cache/config directories, and the
environment-derived default icon directories (XDG data dirs then XDG data
home) that seed `InheritanceFrame::default` (src/config.rs:98). -/
structure Env where
  fs : String → List FsEntry
  home : String
  cache_dir : String
  config_dir : String
  default_icon_dirs : List String

/-- `InheritanceFrame::default` (src/config.rs:98): the root frame. -/
def InheritanceFrame.default (env : Env) : InheritanceFrame :=
  ⟨env.default_icon_dirs, none⟩

/-- Index of the last occurrence of `c` in `cs`, if any. -/
def lastIdxOf (cs : List Char) (c : Char) : Option Nat :=
  (List.range cs.length).foldl
    (fun acc i => if cs.getD i ' ' = c then some i else acc) none

/-- Rust `PathBuf::set_extension`: replaces the extension of the final path
component (the part after its last `.`, provided the stem before that dot is
nonempty), or appends `.ext` when there is none. -/
def set_extension (path : String) (ext : String) : String :=
  let cs := path.toList
  let nameStart :=
    match lastIdxOf cs '/' with
    | some i => i + 1
    | none => 0
  match lastIdxOf cs '.' with
  | some i =>
    if nameStart + 1 ≤ i then String.mk (cs.take i) ++ "." ++ ext
    else path ++ "." ++ ext
  | none => path ++ "." ++ ext

/-- `make_cache_path` (src/config.rs:153). -/
def make_cache_path (env : Env) (preset : String) : String :=
  set_extension (env.cache_dir ++ "/" ++ preset) "cache"

/-- `make_fuzzel_config_path` (src/config.rs:160). -/
def make_fuzzel_config_path (env : Env) (id : Nat) (preset : String) : String :=
  set_extension (env.cache_dir ++ "/" ++ preset ++ Nat.repr id) "fuzzel.ini"

/-- `make_fuzzel_cache_path` (src/config.rs:167). -/
def make_fuzzel_cache_path (env : Env) (id : Nat) (preset : String) : String :=
  set_extension (env.cache_dir ++ "/" ++ preset ++ Nat.repr id) "fuzzel.cache"

/-- `default_fuzzel_config_path` (src/config.rs:174), non-test branch. -/
def default_fuzzel_config_path (env : Env) : String :=
  env.config_dir ++ "/fuzzel" ++ "/fuzzel.ini"

/-- The text written by `create_fuzzel_config` (src/config.rs:185): line 1 is
`include=` pointing at the chained ancestor's generated file, or at the
well-known default config path when there is none; then one `key=value` line
per override, in declaration order. -/
def fuzzel_config_content (env : Env) (pairs : List (String × String))
    (inherit_id : Option Nat) (preset : String) : String :=
  let inherit_path :=
    match inherit_id with
    | none => default_fuzzel_config_path env
    | some i => make_fuzzel_config_path env i preset
  "include=" ++ inherit_path ++ "\n" ++
    String.join (pairs.map (fun kv => kv.1 ++ "=" ++ kv.2 ++ "\n"))

/-- The match test of the `search_for_icon` walk (src/config.rs:438). -/
def icon_matches (name : String) (e : FsEntry) : Bool :=
  e.stem == some name && (e.ext == some "png" || e.ext == some "svg")

/-- The directory loop of `search_for_icon` (src/config.rs:436): the first
matching entry across the recursive walks of `dirs`, in order. -/
def find_icon_in (env : Env) (name : String) (dirs : List String) : Option String :=
  ((dirs.map env.fs).flatten.find? (icon_matches name)).map FsEntry.path

/-- `search_for_icon` (src/config.rs:430); `name.contains('/')` is tested
on the character list. -/
def search_for_icon (env : Env) (name : String) (dirs : List String) : Option String :=
  if name.data.contains '/' then none  -- probably a full path (src/config.rs:433)
  else find_icon_in env name dirs

/-- The per-item `push_front` loop (src/config.rs:328-333): a submenu item's
own icon-dirs are pushed one at a time onto the front of the search list,
only for the lookup of that item's icon. -/
def item_icon_dirs (icon_dirs : List String) (contents : ItemContents) : List String :=
  match contents with
  | .menu m => m.icon_dirs.foldl (fun acc d => d :: acc) icon_dirs
  | .program _ => icon_dirs

/-- Resolution of one item's icon reference (src/config.rs:335-338): a
search across the item's directory list, falling back to the verbatim
reference with `~` expanded to the home directory. -/
def resolved_icon_path (env : Env) (icon_dirs : List String) (icon : String)
    (contents : ItemContents) : String :=
  match search_for_icon env icon (item_icon_dirs icon_dirs contents) with
  | some p => p
  | none => icon.replace "~" env.home

/-- One line of the fuzzel input buffer (src/config.rs:323-342):
`NAME`, then if an icon reference is present a NUL byte, the literal
`icon`, a unit-separator byte and the resolved icon path, then a newline. -/
def item_line (env : Env) (icon_dirs : List String) (item : Item) : String :=
  item.name ++
    (match item.icon with
     | none => ""
     | some icon =>
       "\x00icon\x1f" ++ resolved_icon_path env icon_dirs icon item.contents) ++ "\n"

/-- The input-building loop of `build_resolved_menu` (src/config.rs:324):
one line appended per item, in declaration order. -/
def menu_input (env : Env) (icon_dirs : List String) : List Item → String
  | [] => ""
  | item :: rest => item_line env icon_dirs item ++ menu_input env icon_dirs rest

mutual
/-- Intermediate `ResolvedMenu` (src/config.rs:85). -/
inductive ResolvedMenu where
  | mk (args : List String) (input : String) (items : List ResolvedItem)
/-- Intermediate `ResolvedItem` (src/config.rs:92). -/
inductive ResolvedItem where
  | menu (m : ResolvedMenu)
  | program (p : ComputedProgram)
end

def ResolvedMenu.args : ResolvedMenu → List String
  | .mk a _ _ => a

def ResolvedMenu.input : ResolvedMenu → String
  | .mk _ i _ => i

def ResolvedMenu.items : ResolvedMenu → List ResolvedItem
  | .mk _ _ i => i

/-- The mutable context threaded through the build: the `IdGenerator`
counter (src/config.rs:61) and the log of synthetic config files written
(path, contents), in write order. -/
structure BuildState where
  counter : Nat
  files : List (String × String)
deriving DecidableEq, Repr

mutual
/-- `build_resolved_menu` (src/config.rs:269). -/
def build_resolved_menu (env : Env) (menu : Menu) (stack : List InheritanceFrame)
    (st : BuildState) (preset : String) : ResolvedMenu × BuildState :=
  match menu with
  | .mk fuzzel_args fuzzel_config icon_dirs0 items =>
    let id := st.counter  -- id_gen.next_id() (src/config.rs:275)
    let last_config := (stack.filterMap InheritanceFrame.fuzzel_config_id).getLast?
    let (args1, files1) :=
      if fuzzel_config.isEmpty then
        match last_config with
        | some lc =>
          (fuzzel_args ++ ["--config", make_fuzzel_config_path env lc preset],
           st.files)
        | none => (fuzzel_args, st.files)
      else
        -- create_fuzzel_config writes the synthetic file and returns its path
        (fuzzel_args ++ ["--config", make_fuzzel_config_path env id preset],
         st.files ++ [(make_fuzzel_config_path env id preset,
                       fuzzel_config_content env fuzzel_config last_config preset)])
    let args := args1 ++ ["--cache", make_fuzzel_cache_path env id preset]
    let all_icon_dirs := icon_dirs0 ++ (stack.reverse.map InheritanceFrame.icon_dirs).flatten
    let input := menu_input env all_icon_dirs items
    let child_frame : InheritanceFrame :=
      ⟨icon_dirs0, if fuzzel_config.isEmpty then none else some id⟩
    let res := build_items env items (stack ++ [child_frame]) ⟨st.counter + 1, files1⟩ preset
    (⟨args, input, res.1⟩, res.2)

/-- The recursive child loop of `build_resolved_menu` (src/config.rs:355). -/
def build_items (env : Env) (items : List Item) (child_stack : List InheritanceFrame)
    (st : BuildState) (preset : String) : List ResolvedItem × BuildState :=
  match items with
  | [] => ([], st)
  | .mk _ _ (.menu child) :: rest =>
    let rc := build_resolved_menu env child child_stack st preset
    let rs := build_items env rest child_stack rc.2 preset
    (.menu rc.1 :: rs.1, rs.2)
  | .mk _ _ (.program p) :: rest =>
    let rs := build_items env rest child_stack st preset
    (.program ⟨p.command⟩ :: rs.1, rs.2)
end

/-- The first-pass placeholder conversion of `flatten_resolved_menu`
(src/config.rs:386-401): a submenu child's `items_offset` is provisionally 0. -/
def placeholderItem : ResolvedItem → ComputedItem
  | .menu c => .menu ⟨c.args, c.input, 0⟩
  | .program p => .program p

/-- The `if let ComputedItem::Menu` offset update (src/config.rs:409). -/
def set_menu_offset (items : List ComputedItem) (idx : Nat) (off : Nat) :
    List ComputedItem :=
  match items[idx]? with
  | some (.menu m) => items.set idx (.menu ⟨m.args, m.input, off⟩)
  | _ => items

mutual
/-- `flatten_resolved_menu` (src/config.rs:380). -/
def flatten_resolved_menu (rm : ResolvedMenu) (items : List ComputedItem) :
    ComputedMenu × List ComputedItem :=
  match rm with
  | .mk args input rIts =>
    let items_offset := items.length
    let items1 := items ++ rIts.map placeholderItem
    let items2 := flatten_second_pass rIts items_offset items1
    (⟨args, input, items_offset⟩, items2)

/-- The second pass of `flatten_resolved_menu` (src/config.rs:403-416). -/
def flatten_second_pass : List ResolvedItem → Nat → List ComputedItem →
    List ComputedItem
  | [], _, items => items
  | .menu child :: rest, idx, items =>
    let child_offset := items.length
    let items' := set_menu_offset items idx child_offset
    let items'' := (flatten_resolved_menu child items').2
    flatten_second_pass rest (idx + 1) items''
  | .program _ :: rest, idx, items =>
    flatten_second_pass rest (idx + 1) items
end

/-- The build-and-flatten body of `compute_config` (src/config.rs:252-261):
build with the default root inheritance frame and a fresh `IdGenerator`,
then flatten into `(initial_menu, items)`; the second component is the
final counter and the log of synthetic config files written. -/
def compile_ast (env : Env) (ast : Menu) (preset : String) :
    (ComputedMenu × List ComputedItem) × BuildState :=
  let res := build_resolved_menu env ast [InheritanceFrame.default env] ⟨0, []⟩ preset
  let flat := flatten_resolved_menu res.1 []
  ((flat.1, flat.2), res.2)

/-- `compute_config` (src/config.rs:250); the source text has been
externally KDL-parsed into `doc`, and `hash` is the externally computed
SHA-256 digest of the exact source bytes (as a byte list).  The written
synthetic config files are returned as explicit state. -/
def compute_config (env : Env) (doc : KdlDocument) (hash : List Nat)
    (preset : String) : Except ParseErr (ComputedConfig × BuildState) := do
  let config ← parse_menu_from_nodes env.home doc
  let c := compile_ast env config preset
  .ok (⟨hash.take 8, c.1.1, c.1.2⟩, c.2)

/-- The cache-relevant external world of `get_computed_config`: the raw
bytes of the cache file, when it exists, and the external `bitcode`
decoder. -/
structure CacheEnv where
  cache_file : Option (List Nat)
  decode : List Nat → Option ComputedConfig

/-- `read_cached_config` (src/config.rs:228): `None` on a missing file or a
decode failure. -/
def read_cached_config (cenv : CacheEnv) : Option ComputedConfig :=
  match cenv.cache_file with
  | none => none
  | some bytes => cenv.decode bytes

/-- `get_computed_config` (src/config.rs:122): `src_hash` is the SHA-256
digest of the current source bytes; on a hit the cached value is returned
unmodified, otherwise the full pipeline runs.  The best-effort cache write
(`cache_config`) is a filesystem side effect with no bearing on the
result. -/
def get_computed_config (env : Env) (cenv : CacheEnv) (doc : KdlDocument)
    (src_hash : List Nat) (preset : String) : Except ParseErr ComputedConfig :=
  match read_cached_config cenv with
  | some cached =>
    if cached.hash = src_hash.take 8 then .ok cached
    else (compute_config env doc src_hash preset).map Prod.fst
  | none => (compute_config env doc src_hash preset).map Prod.fst

/-- One step of the driver loop (src/main.rs:76): the item looked up after
the selector returns `selected_index` on `current_menu`. -/
def driver_lookup (cfg : ComputedConfig) (current_menu : ComputedMenu)
    (selected_index : Nat) : Option ComputedItem :=
  cfg.items[selected_index + current_menu.items_offset]?

/-! ## Specification-side derived notions -/

/-- Number of newline bytes in a buffer: the driver and the offset invariant
count a menu's children as the number of newline-terminated lines of its
input buffer. -/
def lineCount (s : String) : Nat := s.data.countP (· == '\n')

mutual
/-- Total number of items appended to the global array when a resolved menu
is flattened (its direct children plus all deeper descendants). -/
def totalSize : ResolvedMenu → Nat
  | .mk _ _ its => its.length + subtreeSizes its
/-- Sum of the `totalSize`s of the submenu children in a child list. -/
def subtreeSizes : List ResolvedItem → Nat
  | [] => 0
  | .menu c :: rest => totalSize c + subtreeSizes rest
  | .program _ :: rest => subtreeSizes rest
end

mutual
/-- Closed-form layout of `flatten_resolved_menu`: the block of items that
flattening `rm` appends when the global array is currently `base` long. -/
def layout : ResolvedMenu → Nat → List ComputedItem
  | .mk _ _ its, base =>
    layoutRow its (base + its.length) ++ layoutSubs its (base + its.length)
/-- The first-pass row with the second pass's offsets already filled in;
`next` is the index at which the first submenu child's block will start. -/
def layoutRow : List ResolvedItem → Nat → List ComputedItem
  | [], _ => []
  | .menu c :: rest, next =>
    .menu ⟨c.args, c.input, next⟩ :: layoutRow rest (next + totalSize c)
  | .program p :: rest, next => .program p :: layoutRow rest next
/-- The concatenated recursive blocks of the submenu children. -/
def layoutSubs : List ResolvedItem → Nat → List ComputedItem
  | [], _ => []
  | .menu c :: rest, next => layout c next ++ layoutSubs rest (next + totalSize c)
  | .program _ :: rest, next => layoutSubs rest next
end

mutual
/-- Line-count well-formedness: every menu's input buffer has exactly one
newline byte per direct child (true whenever no item name or resolved icon
path contains a newline). -/
def WFm : ResolvedMenu → Bool
  | .mk _ input its => lineCount input == its.length && WFl its
def WFl : List ResolvedItem → Bool
  | [] => true
  | .menu c :: rest => WFm c && WFl rest
  | .program _ :: rest => WFl rest
end

mutual
/-- All menus of a resolved tree, in pre-order (the root first). -/
def submenusM : ResolvedMenu → List ResolvedMenu
  | .mk a i its => .mk a i its :: submenusL its
def submenusL : List ResolvedItem → List ResolvedMenu
  | [] => []
  | .menu c :: rest => submenusM c ++ submenusL rest
  | .program _ :: rest => submenusL rest
end

mutual
/-- All menus of a source AST, in pre-order (the root first). -/
def astSubmenus : Menu → List Menu
  | .mk a c d its => .mk a c d its :: astSubmenusL its
def astSubmenusL : List Item → List Menu
  | [] => []
  | .mk _ _ (.menu m) :: rest => astSubmenus m ++ astSubmenusL rest
  | .mk _ _ (.program _) :: rest => astSubmenusL rest
end

mutual
/-- Number of menu nodes of a source AST (the ids one compile consumes). -/
def menuCount : Menu → Nat
  | .mk _ _ _ its => 1 + menuCountL its
def menuCountL : List Item → Nat
  | [] => 0
  | .mk _ _ (.menu m) :: rest => menuCount m + menuCountL rest
  | .mk _ _ (.program _) :: rest => menuCountL rest
end

mutual
/-- A source menu and a resolved menu have the same item skeleton: same
child count, and position by position a program child keeps its command
while a menu child corresponds recursively. -/
def correspondsM : Menu → ResolvedMenu → Prop
  | .mk _ _ _ its, .mk _ _ rits => correspondsL its rits
def correspondsL : List Item → List ResolvedItem → Prop
  | [], [] => True
  | .mk _ _ (.menu m) :: its, .menu rm :: rits => correspondsM m rm ∧ correspondsL its rits
  | .mk _ _ (.program p) :: its, .program q :: rits => q.command = p.command ∧ correspondsL its rits
  | _, _ => False
end

/-- The menus stored in a slice of the global items array, in order. -/
def menusOfItems (items : List ComputedItem) : List ComputedMenu :=
  items.filterMap (fun it => match it with | .menu m => some m | .program _ => none)

/-- A computed item is the flattened form of a resolved child: a program
child keeps its command, a menu child keeps its arguments and input (the
menu entry's own offset is checked when that menu is visited as an `M`
itself). -/
def itemMatches : ResolvedItem → ComputedItem → Prop
  | .program p, .program q => q = p
  | .menu c, .menu cm => cm.args = c.args ∧ cm.input = c.input
  | _, _ => False

/-- Position `off + i` of `G` holds the computed form of child `i`. -/
def rowMatches (G : List ComputedItem) (off : Nat) (cs : List ResolvedItem) : Prop :=
  ∀ i, (h : i < cs.length) →
    ∃ e, G[off + i]? = some e ∧ itemMatches (cs.get ⟨i, h⟩) e

/-- `M` faithfully describes one of the resolved menus `rms` inside the
global array `G`: same arguments and input, its input buffer has one line
per direct child, the child range exists in `G`, and holds exactly those
children in order. -/
def menuGood (G : List ComputedItem) (rms : List ResolvedMenu) (M : ComputedMenu) : Prop :=
  ∃ sm ∈ rms, M.args = sm.args ∧ M.input = sm.input ∧
    lineCount M.input = sm.items.length ∧
    M.items_offset + sm.items.length ≤ G.length ∧
    rowMatches G M.items_offset sm.items

/-- The half-open `items_offset` ranges of two computed menus do not
overlap. -/
def rangesDisjoint (a b : ComputedMenu) : Prop :=
  a.items_offset + lineCount a.input ≤ b.items_offset ∨
    b.items_offset + lineCount b.input ≤ a.items_offset

/-! ## Helper lemmas -/

theorem getElem?_append_cons {α : Type} (P : List α) (x : α) (R : List α) :
    (P ++ x :: R)[P.length]? = some x := by
  induction P with
  | nil => simp
  | cons a t ih => simpa using ih

theorem set_append_cons {α : Type} (P : List α) (x v : α) (R : List α) :
    (P ++ x :: R).set P.length v = P ++ v :: R := by
  induction P with
  | nil => rfl
  | cons a t ih => simp [List.set, ih]

theorem set_menu_offset_at_menu (P : List ComputedItem) (m : ComputedMenu)
    (R : List ComputedItem) (off : Nat) :
    set_menu_offset (P ++ .menu m :: R) P.length off =
      P ++ .menu ⟨m.args, m.input, off⟩ :: R := by
  unfold set_menu_offset
  rw [getElem?_append_cons]
  simp [set_append_cons]

theorem layoutRow_length (cs : List ResolvedItem) (next : Nat) :
    (layoutRow cs next).length = cs.length := by
  induction cs generalizing next with
  | nil => simp [layoutRow]
  | cons c rest ih =>
    cases c with
    | menu m => simp [layoutRow, ih]
    | program p => simp [layoutRow, ih]

mutual
theorem layout_length (rm : ResolvedMenu) (base : Nat) :
    (layout rm base).length = totalSize rm := by
  match rm with
  | .mk a i its =>
    simp [layout, totalSize, layoutRow_length, layoutSubs_length its]
theorem layoutSubs_length (cs : List ResolvedItem) (next : Nat) :
    (layoutSubs cs next).length = subtreeSizes cs := by
  match cs with
  | [] => simp [layoutSubs, subtreeSizes]
  | .menu c :: rest =>
    simp [layoutSubs, subtreeSizes, layout_length c, layoutSubs_length rest]
  | .program p :: rest =>
    simp [layoutSubs, subtreeSizes, layoutSubs_length rest]
end

mutual
theorem flatten_eq_layout (rm : ResolvedMenu) (items : List ComputedItem) :
    flatten_resolved_menu rm items =
      (⟨rm.args, rm.input, items.length⟩, items ++ layout rm items.length) := by
  match rm with
  | .mk a inp its =>
    have h := second_pass_eq its items []
    simp only [List.append_nil, List.length_nil, Nat.add_zero] at h
    rw [flatten_resolved_menu]
    simp only [ResolvedMenu.args, ResolvedMenu.input, h, layout, List.append_assoc]

theorem second_pass_eq (cs : List ResolvedItem) (P S : List ComputedItem) :
    flatten_second_pass cs P.length (P ++ cs.map placeholderItem ++ S) =
      P ++ layoutRow cs (P.length + cs.length + S.length) ++ S ++
        layoutSubs cs (P.length + cs.length + S.length) := by
  match cs with
  | [] => simp [flatten_second_pass, layoutRow, layoutSubs]
  | .program p :: rest =>
    have assoc : P ++ (ComputedItem.program p :: rest.map placeholderItem) ++ S =
        (P ++ [ComputedItem.program p]) ++ rest.map placeholderItem ++ S := by
      simp
    have hlen : P.length + 1 = (P ++ [ComputedItem.program p]).length := by simp
    have ih := second_pass_eq rest (P ++ [ComputedItem.program p]) S
    rw [flatten_second_pass]
    simp only [List.map_cons, placeholderItem, assoc, hlen, ih]
    have harith : (P ++ [ComputedItem.program p]).length + rest.length + S.length =
        P.length + (rest.length + 1) + S.length := by simp; omega
    simp only [harith, layoutRow, layoutSubs, List.length_cons, List.append_assoc,
      List.cons_append, List.singleton_append, List.nil_append]
  | .menu c :: rest =>
    rw [flatten_second_pass]
    have hG : P ++ (ComputedItem.menu ⟨c.args, c.input, 0⟩ :: rest.map placeholderItem) ++ S =
        P ++ ComputedItem.menu ⟨c.args, c.input, 0⟩ :: (rest.map placeholderItem ++ S) := by
      simp
    have hGlen : (P ++ (ComputedItem.menu ⟨c.args, c.input, 0⟩ :: rest.map placeholderItem) ++ S).length =
        P.length + 1 + rest.length + S.length := by simp; omega
    set next := P.length + 1 + rest.length + S.length with hnext
    have hset : set_menu_offset
        (P ++ (ComputedItem.menu ⟨c.args, c.input, 0⟩ :: rest.map placeholderItem) ++ S)
        P.length next =
        P ++ ComputedItem.menu ⟨c.args, c.input, next⟩ :: (rest.map placeholderItem ++ S) := by
      rw [hG]
      exact set_menu_offset_at_menu P ⟨c.args, c.input, 0⟩ (rest.map placeholderItem ++ S) next
    have hsetlen : (P ++ ComputedItem.menu ⟨c.args, c.input, next⟩ :: (rest.map placeholderItem ++ S)).length = next := by
      simp [hnext]; omega
    have hflat := flatten_eq_layout c
      (P ++ ComputedItem.menu ⟨c.args, c.input, next⟩ :: (rest.map placeholderItem ++ S))
    have assoc2 : (P ++ ComputedItem.menu ⟨c.args, c.input, next⟩ :: (rest.map placeholderItem ++ S)) ++ layout c next =
        (P ++ [ComputedItem.menu ⟨c.args, c.input, next⟩]) ++ rest.map placeholderItem ++ (S ++ layout c next) := by
      simp
    have hlen1 : P.length + 1 = (P ++ [ComputedItem.menu ⟨c.args, c.input, next⟩]).length := by simp
    have ih := second_pass_eq rest (P ++ [ComputedItem.menu ⟨c.args, c.input, next⟩]) (S ++ layout c next)
    simp only [List.map_cons, placeholderItem, hGlen, ← hnext, hset, hflat, hsetlen,
      assoc2, hlen1, ih]
    have harith : (P ++ [ComputedItem.menu ⟨c.args, c.input, next⟩]).length + rest.length +
        (S ++ layout c next).length = next + totalSize c := by
      simp [layout_length, hnext]; omega
    simp only [harith, layoutRow, layoutSubs, List.length_cons, List.append_assoc,
      List.cons_append, List.singleton_append]
    have harith2 : P.length + (rest.length + 1) + S.length = next := by simp [hnext]; omega
    simp only [harith2]
    simp
end

theorem totalSize_eq (c : ResolvedMenu) :
    totalSize c = c.items.length + subtreeSizes c.items := by
  cases c with | mk a i its => simp [totalSize, ResolvedMenu.items]

theorem layout_eq (c : ResolvedMenu) (base : Nat) :
    layout c base = layoutRow c.items (base + c.items.length) ++
      layoutSubs c.items (base + c.items.length) := by
  cases c with | mk a i its => simp [layout, ResolvedMenu.items]

theorem submenusM_eq (c : ResolvedMenu) : submenusM c = c :: submenusL c.items := by
  cases c with | mk a i its => simp [submenusM, ResolvedMenu.items]

theorem WFm_parts {c : ResolvedMenu} (h : WFm c = true) :
    lineCount c.input = c.items.length ∧ WFl c.items = true := by
  cases c with
  | mk a i its =>
    simp only [WFm, Bool.and_eq_true, beq_iff_eq] at h
    simpa [ResolvedMenu.input, ResolvedMenu.items] using h

theorem menusOfItems_nil : menusOfItems [] = [] := rfl

theorem menusOfItems_cons_menu (m : ComputedMenu) (l : List ComputedItem) :
    menusOfItems (.menu m :: l) = m :: menusOfItems l := rfl

theorem menusOfItems_cons_program (p : ComputedProgram) (l : List ComputedItem) :
    menusOfItems (.program p :: l) = menusOfItems l := rfl

theorem menusOfItems_append (a b : List ComputedItem) :
    menusOfItems (a ++ b) = menusOfItems a ++ menusOfItems b := by
  simp [menusOfItems, List.filterMap_append]

theorem menuGood_mono {G : List ComputedItem} {rms rms' : List ResolvedMenu}
    {M : ComputedMenu} (h : menuGood G rms M) (hsub : ∀ x ∈ rms, x ∈ rms') :
    menuGood G rms' M := by
  obtain ⟨sm, hmem, hrest⟩ := h
  exact ⟨sm, hsub sm hmem, hrest⟩

theorem layoutRow_entry (cs : List ResolvedItem) (next : Nat) :
    ∀ i, (h : i < cs.length) →
      ∃ e, (layoutRow cs next)[i]? = some e ∧ itemMatches (cs.get ⟨i, h⟩) e := by
  induction cs generalizing next with
  | nil => intro i h; simp at h
  | cons x rest ih =>
    intro i h
    cases x with
    | menu c =>
      match i with
      | 0 =>
        refine ⟨ComputedItem.menu ⟨c.args, c.input, next⟩, by simp [layoutRow], ?_⟩
        simp [List.get, itemMatches]
      | Nat.succ j =>
        obtain ⟨e, he, hm⟩ := ih (next + totalSize c) j (by simpa using h)
        exact ⟨e, by simpa [layoutRow] using he, hm⟩
    | program p =>
      match i with
      | 0 =>
        refine ⟨ComputedItem.program p, by simp [layoutRow], ?_⟩
        simp [List.get, itemMatches]
      | Nat.succ j =>
        obtain ⟨e, he, hm⟩ := ih next j (by simpa using h)
        exact ⟨e, by simpa [layoutRow] using he, hm⟩

theorem rowMatches_layoutRow (G : List ComputedItem) (pre suf : List ComputedItem)
    (cs : List ResolvedItem) (next off : Nat)
    (hG : G = pre ++ layoutRow cs next ++ suf) (hoff : pre.length = off) :
    rowMatches G off cs := by
  subst hG
  subst hoff
  intro i h
  have hi : i < (layoutRow cs next).length := by rw [layoutRow_length]; exact h
  obtain ⟨e, he, hm⟩ := layoutRow_entry cs next i h
  refine ⟨e, ?_, hm⟩
  rw [List.append_assoc, List.getElem?_append_right (Nat.le_add_right _ _),
    Nat.add_sub_cancel_left, List.getElem?_append, if_pos hi, he]

mutual
theorem layout_block_good (rm : ResolvedMenu) (base : Nat)
    (G pre suf : List ComputedItem) (hG : G = pre ++ layout rm base ++ suf)
    (hpre : pre.length = base) (hwf : WFm rm = true) :
    (∀ M ∈ menusOfItems (layout rm base),
        menuGood G (submenusL rm.items) M ∧
        base + rm.items.length ≤ M.items_offset ∧
        M.items_offset + lineCount M.input ≤ base + totalSize rm) ∧
      (menusOfItems (layout rm base)).Pairwise rangesDisjoint := by
  obtain ⟨hlc, hwfl⟩ := WFm_parts hwf
  have hG' : G = (pre ++ layoutRow rm.items (base + rm.items.length)) ++
      layoutSubs rm.items (base + rm.items.length) ++ suf := by
    rw [hG, layout_eq]; simp
  have hpre' : (pre ++ layoutRow rm.items (base + rm.items.length)).length =
      base + rm.items.length := by
    simp [layoutRow_length, hpre]
  have h := subs_block_good rm.items (base + rm.items.length) G _ suf hG' hpre' hwfl
  rw [layout_eq, menusOfItems_append]
  refine ⟨?_, h.2⟩
  intro M hM
  obtain ⟨hg, hlo, hhi⟩ := h.1 M hM
  refine ⟨hg, by omega, ?_⟩
  have := totalSize_eq rm
  omega
termination_by sizeOf rm
decreasing_by all_goals (cases rm; simp [ResolvedMenu.items]; try omega)

theorem subs_block_good (cs : List ResolvedItem) (next : Nat)
    (G pre suf : List ComputedItem) (hG : G = pre ++ layoutSubs cs next ++ suf)
    (hpre : pre.length = next) (hwf : WFl cs = true) :
    (∀ M ∈ menusOfItems (layoutRow cs next) ++ menusOfItems (layoutSubs cs next),
        menuGood G (submenusL cs) M ∧
        next ≤ M.items_offset ∧
        M.items_offset + lineCount M.input ≤ next + subtreeSizes cs) ∧
      (menusOfItems (layoutRow cs next) ++ menusOfItems (layoutSubs cs next)).Pairwise
        rangesDisjoint := by
  match cs with
  | [] =>
    simp [layoutRow, layoutSubs, menusOfItems]
  | .program p :: rest =>
    have hwfr : WFl rest = true := by simpa [WFl] using hwf
    have h := subs_block_good rest next G pre suf (by simpa [layoutSubs] using hG) hpre hwfr
    simpa [layoutRow, layoutSubs, menusOfItems_cons_program, subtreeSizes,
      submenusL] using h
  | .menu c :: rest =>
    have hwf' : WFm c = true ∧ WFl rest = true := by simpa [WFl] using hwf
    obtain ⟨hwfc, hwfr⟩ := hwf'
    obtain ⟨hlc, hwfci⟩ := WFm_parts hwfc
    have htc := totalSize_eq c
    have hsubs : layoutSubs (ResolvedItem.menu c :: rest) next =
        layout c next ++ layoutSubs rest (next + totalSize c) := by simp [layoutSubs]
    have hrow : layoutRow (ResolvedItem.menu c :: rest) next =
        ComputedItem.menu ⟨c.args, c.input, next⟩ :: layoutRow rest (next + totalSize c) := by
      simp [layoutRow]
    have hsubL : submenusL (ResolvedItem.menu c :: rest) = submenusM c ++ submenusL rest := by
      simp [submenusL]
    have hsizes : subtreeSizes (ResolvedItem.menu c :: rest) =
        totalSize c + subtreeSizes rest := by simp [subtreeSizes]
    have hA1 := layout_block_good c next G pre (layoutSubs rest (next + totalSize c) ++ suf)
      (by rw [hG, hsubs]; simp) hpre hwfc
    have hA2 := subs_block_good rest (next + totalSize c) G (pre ++ layout c next) suf
      (by rw [hG, hsubs]; simp) (by simp [layout_length, hpre]) hwfr
    have hM0mem : c ∈ submenusL (ResolvedItem.menu c :: rest) := by
      rw [hsubL, submenusM_eq]; simp
    have hGlen : next + totalSize c ≤ G.length := by
      rw [hG, hsubs]; simp [layout_length]; omega
    have hM0row : rowMatches G next c.items := by
      apply rowMatches_layoutRow G pre
        (layoutSubs c.items (next + c.items.length) ++
          (layoutSubs rest (next + totalSize c) ++ suf))
        c.items (next + c.items.length) next ?_ hpre
      rw [hG, hsubs, layout_eq]
      simp
    have hM0good : menuGood G (submenusL (ResolvedItem.menu c :: rest))
        ⟨c.args, c.input, next⟩ := by
      refine ⟨c, hM0mem, rfl, rfl, hlc, ?_, hM0row⟩
      show next + c.items.length ≤ G.length
      omega
    have hmonoL : ∀ x ∈ submenusL c.items, x ∈ submenusL (ResolvedItem.menu c :: rest) := by
      intro x hx
      rw [hsubL]
      exact List.mem_append_left _ (by rw [submenusM_eq]; exact List.mem_cons_of_mem _ hx)
    have hmonoR : ∀ x ∈ submenusL rest, x ∈ submenusL (ResolvedItem.menu c :: rest) := by
      intro x hx
      rw [hsubL]
      exact List.mem_append_right _ hx
    constructor
    · intro M hM
      rw [hrow, hsubs, menusOfItems_append, menusOfItems_cons_menu] at hM
      rcases List.mem_append.mp hM with hM1 | hMLS
      · rcases List.mem_cons.mp hM1 with hM0 | hMR
        · subst hM0
          refine ⟨hM0good, by simp, ?_⟩
          simp only [lineCount]
          show next + lineCount c.input ≤ next + subtreeSizes (ResolvedItem.menu c :: rest)
          omega
        · obtain ⟨hg, hlo, hhi⟩ := hA2.1 M (List.mem_append_left _ hMR)
          exact ⟨menuGood_mono hg hmonoR, by omega, by omega⟩
      · rcases List.mem_append.mp hMLS with hML | hMS
        · obtain ⟨hg, hlo, hhi⟩ := hA1.1 M hML
          exact ⟨menuGood_mono hg hmonoL, by omega, by omega⟩
        · obtain ⟨hg, hlo, hhi⟩ := hA2.1 M (List.mem_append_right _ hMS)
          exact ⟨menuGood_mono hg hmonoR, by omega, by omega⟩
    · rw [hrow, hsubs, menusOfItems_append, menusOfItems_cons_menu]
      obtain ⟨hPWR, hPWS, hcrossRS⟩ := List.pairwise_append.mp hA2.2
      rw [List.pairwise_append]
      refine ⟨?_, ?_, ?_⟩
      · rw [List.pairwise_cons]
        constructor
        · intro M hMR
          obtain ⟨_, hlo, _⟩ := hA2.1 M (List.mem_append_left _ hMR)
          left
          show next + lineCount c.input ≤ M.items_offset
          omega
        · exact hPWR
      · rw [List.pairwise_append]
        refine ⟨hA1.2, hPWS, ?_⟩
        intro a haL b hbS
        obtain ⟨_, _, hia⟩ := hA1.1 a haL
        obtain ⟨_, hlob, _⟩ := hA2.1 b (List.mem_append_right _ hbS)
        exact Or.inl (by omega)
      · intro a haM0R b hbLS
        rcases List.mem_cons.mp haM0R with haM0 | haR
        · subst haM0
          rcases List.mem_append.mp hbLS with hbL | hbS
          · obtain ⟨_, hlob, _⟩ := hA1.1 b hbL
            left
            show next + lineCount c.input ≤ b.items_offset
            omega
          · obtain ⟨_, hlob, _⟩ := hA2.1 b (List.mem_append_right _ hbS)
            left
            show next + lineCount c.input ≤ b.items_offset
            omega
        · obtain ⟨_, hloa, _⟩ := hA2.1 a (List.mem_append_left _ haR)
          rcases List.mem_append.mp hbLS with hbL | hbS
          · obtain ⟨_, _, hib⟩ := hA1.1 b hbL
            exact Or.inr (by omega)
          · exact hcrossRS a haR b hbS
termination_by sizeOf cs
end

mutual
theorem build_corresponds (env : Env) (menu : Menu) (stack : List InheritanceFrame)
    (st : BuildState) (preset : String) :
    correspondsM menu (build_resolved_menu env menu stack st preset).1 := by
  match menu with
  | .mk fa fc idirs its =>
    rw [build_resolved_menu]
    simp only [correspondsM]
    exact build_items_corresponds env its _ _ preset
termination_by sizeOf menu

theorem build_items_corresponds (env : Env) (items : List Item)
    (child_stack : List InheritanceFrame) (st : BuildState) (preset : String) :
    correspondsL items (build_items env items child_stack st preset).1 := by
  match items with
  | [] =>
    rw [build_items]
    simp [correspondsL]
  | .mk n i (.menu child) :: rest =>
    rw [build_items]
    simp only [correspondsL]
    exact ⟨build_corresponds env child _ _ preset,
      build_items_corresponds env rest _ _ preset⟩
  | .mk n i (.program p) :: rest =>
    rw [build_items]
    simp only [correspondsL]
    refine ⟨?_, build_items_corresponds env rest _ _ preset⟩
    first
    | rfl
    | trivial
termination_by sizeOf items
end

mutual
theorem corresponds_submenus (src : Menu) (rm : ResolvedMenu)
    (h : correspondsM src rm) :
    ∀ sm ∈ submenusM rm, ∃ srcm ∈ astSubmenus src, correspondsM srcm sm := by
  match src, rm with
  | .mk fa fc idirs its, .mk a i rits =>
    intro sm hsm
    rw [submenusM] at hsm
    rcases List.mem_cons.mp hsm with h0 | hrest
    · subst h0
      exact ⟨.mk fa fc idirs its, by rw [astSubmenus]; exact List.mem_cons_self _ _, h⟩
    · have hcl : correspondsL its rits := by simpa [correspondsM] using h
      obtain ⟨srcm, hmem, hc⟩ := corresponds_submenusL its rits hcl sm hrest
      exact ⟨srcm, by rw [astSubmenus]; exact List.mem_cons_of_mem _ hmem, hc⟩
termination_by sizeOf rm

theorem corresponds_submenusL (its : List Item) (rits : List ResolvedItem)
    (h : correspondsL its rits) :
    ∀ sm ∈ submenusL rits, ∃ srcm ∈ astSubmenusL its, correspondsM srcm sm := by
  match its, rits with
  | [], [] =>
    intro sm hsm
    simp [submenusL] at hsm
  | [], r :: rs =>
    exact absurd h (by simp [correspondsL])
  | i :: is', [] =>
    exact absurd h (by cases i with | mk n ic cont => cases cont <;> simp [correspondsL])
  | .mk n ic (.menu m) :: rest, .menu rmc :: rrest =>
    intro sm hsm
    have h' : correspondsM m rmc ∧ correspondsL rest rrest := by
      simpa [correspondsL] using h
    rw [submenusL] at hsm
    rcases List.mem_append.mp hsm with h1 | h2
    · obtain ⟨srcm, hmem, hc⟩ := corresponds_submenus m rmc h'.1 sm h1
      exact ⟨srcm, by rw [astSubmenusL]; exact List.mem_append_left _ hmem, hc⟩
    · obtain ⟨srcm, hmem, hc⟩ := corresponds_submenusL rest rrest h'.2 sm h2
      exact ⟨srcm, by rw [astSubmenusL]; exact List.mem_append_right _ hmem, hc⟩
  | .mk n ic (.menu m) :: rest, .program q :: rrest =>
    exact absurd h (by simp [correspondsL])
  | .mk n ic (.program p) :: rest, .menu rmc :: rrest =>
    exact absurd h (by simp [correspondsL])
  | .mk n ic (.program p) :: rest, .program q :: rrest =>
    intro sm hsm
    have h' : q.command = p.command ∧ correspondsL rest rrest := by
      simpa [correspondsL] using h
    rw [submenusL] at hsm
    obtain ⟨srcm, hmem, hc⟩ := corresponds_submenusL rest rrest h'.2 sm hsm
    exact ⟨srcm, by rw [astSubmenusL]; exact hmem, hc⟩
termination_by sizeOf rits
end

/-- The resolved tree of one compile (`build_resolved_menu` seeded exactly
as `compute_config` seeds it: the default root frame and a fresh counter). -/
def compiled_root (env : Env) (ast : Menu) (preset : String) : ResolvedMenu :=
  (build_resolved_menu env ast [InheritanceFrame.default env] ⟨0, []⟩ preset).1

theorem compile_ast_eq (env : Env) (ast : Menu) (preset : String) :
    (compile_ast env ast preset).1 =
      (⟨(compiled_root env ast preset).args, (compiled_root env ast preset).input, 0⟩,
       layout (compiled_root env ast preset) 0) := by
  unfold compile_ast compiled_root
  simp only [flatten_eq_layout, List.length_nil, List.nil_append]

/-- The offset invariant of one compiled configuration: every computed menu
`M` in the output (the initial menu included) describes some submenu of the
resolved tree — which itself corresponds to a source submenu — `M.input` has
exactly one newline-terminated line per direct child, the child range
`items[M.items_offset .. M.items_offset + k)` exists and holds exactly that
menu's direct children in declaration order, and the offset ranges of
distinct menus in the output never overlap. -/
def OffsetInvariant (env : Env) (ast : Menu) (preset : String) : Prop :=
  (∀ M ∈ (compile_ast env ast preset).1.1 ::
      menusOfItems (compile_ast env ast preset).1.2,
      ∃ sm ∈ submenusM (compiled_root env ast preset),
        (∃ srcm ∈ astSubmenus ast, correspondsM srcm sm) ∧
        M.args = sm.args ∧ M.input = sm.input ∧
        lineCount M.input = sm.items.length ∧
        M.items_offset + sm.items.length ≤ (compile_ast env ast preset).1.2.length ∧
        rowMatches (compile_ast env ast preset).1.2 M.items_offset sm.items) ∧
    ((compile_ast env ast preset).1.1 ::
      menusOfItems (compile_ast env ast preset).1.2).Pairwise rangesDisjoint

/-- C1 (amended): for every compiled configuration all of whose resolved
menus carry exactly one input line per direct child — the condition that
holds whenever item display names and resolved icon paths contain no
newline byte — the offset invariant holds: for every `ComputedMenu` M in
the output (the initial menu included), with k the number of
newline-terminated lines of `M.input`, the entries
`items[M.items_offset .. M.items_offset + k)` exist, are exactly the direct
children of the corresponding source menu in declaration order, and no
other menu's offset range overlaps this half-open range. -/
theorem c1_offset_invariant_amended (env : Env) (ast : Menu) (preset : String)
    (hwf : WFm (compiled_root env ast preset) = true) :
    OffsetInvariant env ast preset := by
  obtain ⟨hlc, _⟩ := WFm_parts hwf
  unfold OffsetInvariant
  rw [compile_ast_eq]
  set rm := compiled_root env ast preset with hrmdef
  have hblock := layout_block_good rm 0 (layout rm 0) [] [] (by simp) rfl hwf
  have hcorr : correspondsM ast rm := build_corresponds env ast _ _ preset
  have hsrc : ∀ sm ∈ submenusM rm, ∃ srcm ∈ astSubmenus ast, correspondsM srcm sm :=
    corresponds_submenus ast rm hcorr
  have hlenitems : (layout rm 0).length = totalSize rm := layout_length rm 0
  have htot := totalSize_eq rm
  have hrmmem : rm ∈ submenusM rm := by
    rw [submenusM_eq]
    exact List.mem_cons_self _ _
  constructor
  · intro M hM
    rcases List.mem_cons.mp hM with h0 | hMb
    · subst h0
      refine ⟨rm, hrmmem, hsrc rm hrmmem, rfl, rfl, hlc, ?_, ?_⟩
      · show 0 + rm.items.length ≤ (layout rm 0).length
        omega
      · show rowMatches (layout rm 0) 0 rm.items
        exact rowMatches_layoutRow (layout rm 0) []
          (layoutSubs rm.items (0 + rm.items.length)) rm.items (0 + rm.items.length) 0
          (by rw [layout_eq]; simp) rfl
    · obtain ⟨⟨sm, hsmmem, hargs, hinput, hlcM, hbound, hrow⟩, hlo, hhi⟩ :=
        hblock.1 M hMb
      have hsmM : sm ∈ submenusM rm := by
        rw [submenusM_eq]
        exact List.mem_cons_of_mem _ hsmmem
      exact ⟨sm, hsmM, hsrc sm hsmM, hargs, hinput, hlcM, hbound, hrow⟩
  · rw [List.pairwise_cons]
    refine ⟨?_, hblock.2⟩
    intro M hMb
    obtain ⟨_, hlo, _⟩ := hblock.1 M hMb
    left
    show 0 + lineCount rm.input ≤ M.items_offset
    omega

/-- A concrete environment: empty filesystem walks, fixed home, cache and
config directories, one default data directory. -/
def envX : Env := ⟨fun _ => [], "/home/u", "/cache", "/cfg", ["/usr/share"]⟩

/-- `program "Open" { command "xdg-open" "file.txt" }` as an AST. -/
def astOpen : Menu := .mk [] [] [] [.mk "Open" none (.program ⟨["xdg-open", "file.txt"]⟩)]

/-- A root menu whose single program item's display name contains a newline
byte. -/
def astNewline : Menu := .mk [] [] [] [.mk "A\nB" none (.program ⟨["c"]⟩)]

/-- C1 counterexample: with a display name containing a newline byte the
initial menu's input has two newline-terminated lines but the compile
produces only one global item, so the claimed range
`items[items_offset .. items_offset + k)` does not exist in the items
array — the invariant as stated fails for this compiled configuration. -/
theorem c1_offset_invariant_counterexample :
    ¬ ((compile_ast envX astNewline "p").1.1.items_offset +
        lineCount (compile_ast envX astNewline "p").1.1.input ≤
        (compile_ast envX astNewline "p").1.2.length) := by decide

/-- C1 witness: the amended theorem applied to the one-program
configuration. -/
theorem c1_offset_invariant_witness :
    WFm (compiled_root envX astOpen "p") = true ∧ OffsetInvariant envX astOpen "p" :=
  ⟨by decide, c1_offset_invariant_amended envX astOpen "p" (by decide)⟩

/-- A zero span for concrete documents. -/
def sp0 : Span := ⟨0, 0⟩

/-- An unnamed string entry for concrete documents. -/
def strEntry (s : String) : KdlEntry := ⟨none, .str s, sp0⟩

/-- The KDL document `program "Open" { command "xdg-open" "file.txt" }`. -/
def docOpen : KdlDocument :=
  .mk [.mk "program" sp0 [strEntry "Open"]
        (some (.mk [.mk "command" sp0 [strEntry "xdg-open", strEntry "file.txt"]
                     none sp0] sp0))
        sp0] sp0

/-- A concrete 9-byte stand-in for the SHA-256 digest of the source. -/
def hashX : List Nat := [1, 2, 3, 4, 5, 6, 7, 8, 9]

theorem parse_docOpen : parse_menu_from_nodes envX.home docOpen = .ok astOpen := by
  simp [parse_menu_from_nodes, parse_menu_go, parse_item_from_nodes,
    parse_program_from_nodes, parse_program_go, parse_item_icon, one_argument,
    many_arguments, many_arguments.go, no_parameters, no_children, docOpen,
    strEntry, sp0, KdlNode.name, KdlNode.entries, KdlNode.children,
    KdlDocument.nodes, astOpen, envX, Except.bind]
  rfl

theorem compute_config_docOpen :
    compute_config envX docOpen hashX "p" =
      .ok (⟨hashX.take 8, (compile_ast envX astOpen "p").1.1,
            (compile_ast envX astOpen "p").1.2⟩, (compile_ast envX astOpen "p").2) := by
  unfold compute_config
  rw [parse_docOpen]
  rfl

/-- C2 counterexample: compiling the single-program source yields a
one-element items array — the flattener's first pass places the program in
the global array — not the empty array the claim asserts. -/
theorem c2_single_program_counterexample :
    (compute_config envX docOpen hashX "p").map (fun r => r.1.items) ≠ .ok [] := by
  rw [compute_config_docOpen]
  simp only [Except.map, ne_eq, Except.ok.injEq]
  decide

/-- C2 (amended): compiling the source declaring exactly one
`program "Open" { command "xdg-open" "file.txt" }` yields a `ComputedConfig`
with `initial_menu.input = "Open\n"`, `initial_menu.items_offset = 0`, and
`items = [Program{command: ["xdg-open","file.txt"]}]` (a one-element array,
not the empty array); the driver's lookup for selected index 0 computes
global index 0 + 0 and yields that program from the items array. -/
theorem c2_single_program_amended :
    ∃ cfg st, compute_config envX docOpen hashX "p" = .ok (cfg, st) ∧
      cfg.initial_menu.input = "Open\n" ∧
      cfg.initial_menu.items_offset = 0 ∧
      cfg.items = [.program ⟨["xdg-open", "file.txt"]⟩] ∧
      driver_lookup cfg cfg.initial_menu 0 =
        some (.program ⟨["xdg-open", "file.txt"]⟩) := by
  refine ⟨_, _, compute_config_docOpen, ?_, ?_, ?_, ?_⟩ <;> decide

theorem foldl_push_front {α : Type} (l acc : List α) :
    l.foldl (fun a d => d :: a) acc = l.reverse ++ acc := by
  induction l generalizing acc with
  | nil => simp
  | cons x rest ih => simp [List.foldl, ih]

/-- C9: when resolving the icon of a menu item whose contents is a submenu
declaring icon-dirs `[d1, …, dn]`, those directories are pushed one at a
time onto the front of the search list, so they end up in reverse
declaration order (`dn` first, `d1` last) ahead of the inherited list; a
program item's lookup uses the inherited list unchanged, so the reversal
applies only to that specific item's icon lookup. -/
theorem c9_submenu_icon_dirs_reversed :
    (∀ (dirs : List String) (c : Menu),
        item_icon_dirs dirs (.menu c) = c.icon_dirs.reverse ++ dirs) ∧
    (∀ (dirs : List String) (p : Program),
        item_icon_dirs dirs (.program p) = dirs) := by
  constructor
  · intro dirs c
    simp [item_icon_dirs, foldl_push_front]
  · intro dirs p
    simp [item_icon_dirs]

theorem string_data_append (a b : String) : (a ++ b).data = a.data ++ b.data := by
  cases a
  cases b
  rfl

theorem lineCount_append (a b : String) :
    lineCount (a ++ b) = lineCount a + lineCount b := by
  simp [lineCount, string_data_append, List.countP_append]

theorem lineCount_item_line (env : Env) (dirs : List String) (it : Item)
    (hname : lineCount it.name = 0)
    (hicon : ∀ ic, it.icon = some ic →
      lineCount (resolved_icon_path env dirs ic it.contents) = 0) :
    lineCount (item_line env dirs it) = 1 := by
  cases it with
  | mk n icon cont =>
    simp only [Item.name] at hname
    cases icon with
    | none =>
      simp only [item_line, Item.icon, Item.name]
      rw [lineCount_append, lineCount_append]
      have h1 : lineCount "" = 0 := by decide
      have h2 : lineCount "\n" = 1 := by decide
      omega
    | some ic =>
      have hp := hicon ic (by simp [Item.icon])
      simp only [Item.contents] at hp
      simp only [item_line, Item.icon, Item.name, Item.contents]
      rw [lineCount_append, lineCount_append, lineCount_append]
      have h2 : lineCount "\n" = 1 := by decide
      have h3 : lineCount "\x00icon\x1f" = 0 := by decide
      omega

theorem lineCount_menu_input (env : Env) (dirs : List String) (items : List Item)
    (h : ∀ it ∈ items, lineCount it.name = 0 ∧
      ∀ ic, it.icon = some ic →
        lineCount (resolved_icon_path env dirs ic it.contents) = 0) :
    lineCount (menu_input env dirs items) = items.length := by
  induction items with
  | nil => rfl
  | cons it rest ih =>
    have hit := h it (List.mem_cons_self _ _)
    have hline := lineCount_item_line env dirs it hit.1 hit.2
    rw [menu_input, lineCount_append, hline,
      ih (fun x hx => h x (List.mem_cons_of_mem _ hx))]
    simp [Nat.add_comm]

/-- C10: the input buffer of a menu is built as one newline-terminated line
per direct item, in declaration order; whenever every item display name and
every resolved icon path contains no newline byte, the buffer's line count
equals the menu's direct child count.  Since names are written verbatim, a
display name containing a newline byte makes the line count exceed the
child count (concretely: the compile of a root menu with the single program
item named `"A\nB"` has an input buffer with 2 lines but 1 child),
breaking the correspondence the offset invariant relies on. -/
theorem c10_input_line_structure :
    (∀ (env : Env) (dirs : List String) (item : Item) (rest : List Item),
        menu_input env dirs (item :: rest) =
          item_line env dirs item ++ menu_input env dirs rest) ∧
    (∀ (env : Env) (dirs : List String) (items : List Item),
        (∀ it ∈ items, lineCount it.name = 0 ∧
          ∀ ic, it.icon = some ic →
            lineCount (resolved_icon_path env dirs ic it.contents) = 0) →
        lineCount (menu_input env dirs items) = items.length) ∧
    lineCount (compiled_root envX astNewline "p").input = 2 ∧
    (compiled_root envX astNewline "p").items.length = 1 := by
  refine ⟨fun env dirs item rest => rfl, lineCount_menu_input, by decide, by decide⟩

/-- C10 witness: the line-count statement applied to the concrete
one-program menu. -/
theorem c10_input_line_structure_witness :
    lineCount (menu_input envX [] astOpen.items) = astOpen.items.length :=
  c10_input_line_structure.2.1 envX [] astOpen.items (by decide)

theorem option_map_or {α β : Type} (x y : Option α) (f : α → β) :
    (x.or y).map f = (x.map f).or (y.map f) := by
  cases x <;> rfl

theorem find_icon_in_append (env : Env) (name : String) (a b : List String) :
    find_icon_in env name (a ++ b) =
      (find_icon_in env name a).or (find_icon_in env name b) := by
  unfold find_icon_in
  rw [List.map_append, List.flatten_append, List.find?_append, option_map_or]

/-- C4: the ordered icon-search directory list places the current menu's own
declared icon-dirs first, then each ancestor frame's icon-dirs walked from
the nearest ancestor (top of the inheritance stack) to the root frame — the
process-wide default directories seed the root frame, so they are searched
last; consequently, when an icon with the looked-up stem exists in the
nearest ancestor's directories (and the menu's own dirs hold no match), the
search returns the nearest ancestor's file no matter what identically-named
icons any farther ancestor's directories hold. -/
theorem c4_icon_precedence :
    (∀ (env : Env) (fa : List String) (fc : List (String × String))
        (idirs : List String) (its : List Item) (stack : List InheritanceFrame)
        (st : BuildState) (preset : String),
        (build_resolved_menu env (.mk fa fc idirs its) stack st preset).1.input =
          menu_input env
            (idirs ++ ((stack.reverse.map InheritanceFrame.icon_dirs).flatten)) its) ∧
    (∀ (env : Env) (name : String) (own : List String)
        (frames : List InheritanceFrame) (nearest : InheritanceFrame) (p : String),
        name.data.contains '/' = false →
        find_icon_in env name own = none →
        find_icon_in env name nearest.icon_dirs = some p →
        search_for_icon env name
          (own ++ (((frames ++ [nearest]).reverse.map
            InheritanceFrame.icon_dirs).flatten)) = some p) := by
  constructor
  · intro env fa fc idirs its stack st preset
    rw [build_resolved_menu]
    by_cases hfc : fc.isEmpty = true
    · rw [if_pos hfc]
      cases (List.filterMap InheritanceFrame.fuzzel_config_id stack).getLast? <;> rfl
    · rw [if_neg hfc]
      rfl
  · intro env name own frames nearest p hn ho hp
    rw [search_for_icon, if_neg (by simpa using hn)]
    rw [List.reverse_append]
    simp only [List.reverse_cons, List.reverse_nil, List.nil_append, List.map_cons,
      List.flatten_cons, List.map_append, List.flatten_append, List.singleton_append]
    rw [find_icon_in_append, ho]
    rw [show ((none : Option String).or
      (find_icon_in env name (nearest.icon_dirs ++
        (frames.reverse.map InheritanceFrame.icon_dirs).flatten))) =
      find_icon_in env name (nearest.icon_dirs ++
        (frames.reverse.map InheritanceFrame.icon_dirs).flatten) from rfl]
    rw [find_icon_in_append, hp]
    rfl

/-- An environment whose walks find an icon `ic` both in `/near` and in
`/far`. -/
def envIcons : Env :=
  ⟨fun d => if d = "/near" then [({ path := "/near/ic.png", stem := some "ic", ext := some "png" } : FsEntry)]
            else if d = "/far" then [({ path := "/far/ic.png", stem := some "ic", ext := some "png" } : FsEntry)]
            else [],
   "/home/u", "/cache", "/cfg", ["/usr/share"]⟩

/-- C4 witness: with the nearest ancestor declaring `/near` and a farther
ancestor declaring `/far`, both holding an icon named `ic`, the search
returns the nearest ancestor's file. -/
theorem c4_icon_precedence_witness :
    search_for_icon envIcons "ic"
      ([] ++ (((([⟨["/far"], none⟩] : List InheritanceFrame) ++
        ([⟨["/near"], none⟩] : List InheritanceFrame)).reverse.map
        InheritanceFrame.icon_dirs).flatten)) = some "/near/ic.png" :=
  c4_icon_precedence.2 envIcons "ic" [] [⟨["/far"], none⟩] ⟨["/near"], none⟩
    "/near/ic.png" (by decide) (by decide) (by decide)

mutual
theorem build_files_mono (env : Env) (menu : Menu) (stack : List InheritanceFrame)
    (st : BuildState) (preset : String) :
    ∃ rest, (build_resolved_menu env menu stack st preset).2.files = st.files ++ rest := by
  match menu with
  | .mk fa fc idirs its =>
    rw [build_resolved_menu]
    by_cases hfc : fc.isEmpty = true
    · rw [if_pos hfc]
      cases hlc : (List.filterMap InheritanceFrame.fuzzel_config_id stack).getLast? with
      | none =>
        obtain ⟨r, hr⟩ := build_items_files_mono env its
          (stack ++ [⟨idirs, if fc.isEmpty = true then none else some st.counter⟩])
          ⟨st.counter + 1, st.files⟩ preset
        exact ⟨r, hr⟩
      | some lc =>
        obtain ⟨r, hr⟩ := build_items_files_mono env its
          (stack ++ [⟨idirs, if fc.isEmpty = true then none else some st.counter⟩])
          ⟨st.counter + 1, st.files⟩ preset
        exact ⟨r, hr⟩
    · rw [if_neg hfc]
      obtain ⟨r, hr⟩ := build_items_files_mono env its
        (stack ++ [⟨idirs, if fc.isEmpty = true then none else some st.counter⟩])
        ⟨st.counter + 1,
         st.files ++ [(make_fuzzel_config_path env st.counter preset,
           fuzzel_config_content env fc
             (List.filterMap InheritanceFrame.fuzzel_config_id stack).getLast? preset)]⟩
        preset
      refine ⟨(make_fuzzel_config_path env st.counter preset,
        fuzzel_config_content env fc
          (List.filterMap InheritanceFrame.fuzzel_config_id stack).getLast? preset) :: r, ?_⟩
      rw [hr]
      simp
termination_by sizeOf menu

theorem build_items_files_mono (env : Env) (items : List Item)
    (child_stack : List InheritanceFrame) (st : BuildState) (preset : String) :
    ∃ rest, (build_items env items child_stack st preset).2.files = st.files ++ rest := by
  match items with
  | [] =>
    rw [build_items]
    exact ⟨[], by simp⟩
  | .mk n i (.menu child) :: rest =>
    rw [build_items]
    obtain ⟨r1, hr1⟩ := build_files_mono env child child_stack st preset
    obtain ⟨r2, hr2⟩ := build_items_files_mono env rest child_stack
      (build_resolved_menu env child child_stack st preset).2 preset
    exact ⟨r1 ++ r2, by rw [hr2, hr1]; simp⟩
  | .mk n i (.program p) :: rest =>
    rw [build_items]
    exact build_items_files_mono env rest child_stack st preset
termination_by sizeOf items
end

/-- C3, general part (as a helper): a menu defining overrides writes, before
any of its descendants, a synthetic file at the path derived from (preset,
its id) whose first line is `include=` pointing at the nearest
override-defining ancestor's generated file (or the well-known default
configuration path when there is none), followed by one `key=value` line per
override in declaration order. -/
theorem build_writes_synthetic_config (env : Env) (fa : List String)
    (fc : List (String × String)) (idirs : List String) (its : List Item)
    (stack : List InheritanceFrame) (st : BuildState) (preset : String)
    (hfc : fc ≠ []) :
    ∃ rest,
      (build_resolved_menu env (.mk fa fc idirs its) stack st preset).2.files =
        st.files ++
          (make_fuzzel_config_path env st.counter preset,
           fuzzel_config_content env fc
             ((stack.filterMap InheritanceFrame.fuzzel_config_id).getLast?) preset) ::
          rest := by
  rw [build_resolved_menu]
  rw [if_neg (by simpa using hfc)]
  obtain ⟨r, hr⟩ := build_items_files_mono env its
    (stack ++ [⟨idirs, if fc.isEmpty = true then none else some st.counter⟩])
    ⟨st.counter + 1,
     st.files ++ [(make_fuzzel_config_path env st.counter preset,
       fuzzel_config_content env fc
         (List.filterMap InheritanceFrame.fuzzel_config_id stack).getLast? preset)]⟩
    preset
  refine ⟨r, ?_⟩
  rw [hr]
  simp

/-- A 3-level nested menu: the root defines the override `a=1`, the middle
menu `Mid` defines none, and the deepest menu `Leaf` defines `b=2`. -/
def ast3 : Menu := .mk [] [("a", "1")] []
  [.mk "Mid" none (.menu (.mk [] [] []
    [.mk "Leaf" none (.menu (.mk [] [("b", "2")] []
      [.mk "P" none (.program ⟨["c"]⟩)]))]))]

/-- C3: the compile of the 3-level scenario writes exactly two synthetic
files — the root's (id 0), whose `include=` line points at the well-known
default configuration path, and the deepest menu's (id 2), whose first line
is an `include=` directive pointing at the root's synthetic file (the
middle menu, defining no overrides, passes the chain through unchanged) —
each followed by one `key=value` line per override in declaration order;
and in general a menu that defines overrides writes a file whose first line
is an `include=` directive pointing at the nearest override-defining
ancestor's generated file, or at the well-known default configuration path
if no such ancestor exists, followed by its `key=value` lines. -/
theorem c3_synthetic_config_chaining :
    (compile_ast envX ast3 "p").2.files =
      [("/cache/p0.fuzzel.ini", "include=/cfg/fuzzel/fuzzel.ini\na=1\n"),
       ("/cache/p2.fuzzel.ini", "include=/cache/p0.fuzzel.ini\nb=2\n")] ∧
    (∀ (env : Env) (fa : List String) (fc : List (String × String))
        (idirs : List String) (its : List Item)
        (stack : List InheritanceFrame) (st : BuildState) (preset : String),
        fc ≠ [] →
        ∃ rest,
          (build_resolved_menu env (.mk fa fc idirs its) stack st preset).2.files =
            st.files ++
              (make_fuzzel_config_path env st.counter preset,
               fuzzel_config_content env fc
                 ((stack.filterMap InheritanceFrame.fuzzel_config_id).getLast?) preset) ::
              rest) := by
  constructor
  · decide
  · exact build_writes_synthetic_config

/-- C3 witness: the general statement applied to the leaf menu's build step
inside the concrete scenario (a stack whose nearest override-defining
ancestor is the root, id 0). -/
theorem c3_synthetic_config_chaining_witness :
    ∃ rest,
      (build_resolved_menu envX (.mk [] [("b", "2")] []
          [.mk "P" none (.program ⟨["c"]⟩)])
        [⟨[], some 0⟩, ⟨[], none⟩] ⟨2, []⟩ "p").2.files =
        [] ++
          (make_fuzzel_config_path envX 2 "p",
           fuzzel_config_content envX [("b", "2")] (some 0) "p") :: rest :=
  c3_synthetic_config_chaining.2 envX [] [("b", "2")] []
    [.mk "P" none (.program ⟨["c"]⟩)] [⟨[], some 0⟩, ⟨[], none⟩] ⟨2, []⟩ "p"
    (by decide)

mutual
theorem build_counter (env : Env) (menu : Menu) (stack : List InheritanceFrame)
    (st : BuildState) (preset : String) :
    (build_resolved_menu env menu stack st preset).2.counter =
      st.counter + menuCount menu := by
  match menu with
  | .mk fa fc idirs its =>
    rw [build_resolved_menu, menuCount]
    by_cases hfc : fc.isEmpty = true
    · rw [if_pos hfc]
      cases (List.filterMap InheritanceFrame.fuzzel_config_id stack).getLast? <;>
        · show (build_items env its _ ⟨st.counter + 1, _⟩ preset).2.counter = _
          rw [build_items_counter]
          show st.counter + 1 + menuCountL its = _
          omega
    · rw [if_neg hfc]
      show (build_items env its _ ⟨st.counter + 1, _⟩ preset).2.counter = _
      rw [build_items_counter]
      show st.counter + 1 + menuCountL its = _
      omega
termination_by sizeOf menu

theorem build_items_counter (env : Env) (items : List Item)
    (child_stack : List InheritanceFrame) (st : BuildState) (preset : String) :
    (build_items env items child_stack st preset).2.counter =
      st.counter + menuCountL items := by
  match items with
  | [] =>
    rw [build_items, menuCountL]
    rfl
  | .mk n i (.menu child) :: rest =>
    rw [build_items, menuCountL]
    show (build_items env rest child_stack
      (build_resolved_menu env child child_stack st preset).2 preset).2.counter = _
    rw [build_items_counter, build_counter]
    omega
  | .mk n i (.program p) :: rest =>
    rw [build_items, menuCountL]
    show (build_items env rest child_stack st preset).2.counter = _
    rw [build_items_counter]
termination_by sizeOf items
end

theorem getLast_append_pair {α : Type} (l : List α) (a b : α) :
    (l ++ [a, b]).getLast? = some b := by
  rw [show l ++ [a, b] = (l ++ [a]) ++ [b] by simp]
  exact List.getLast?_concat _

mutual
theorem build_cache_ids (env : Env) (menu : Menu) (stack : List InheritanceFrame)
    (st : BuildState) (preset : String) :
    (submenusM (build_resolved_menu env menu stack st preset).1).map
        (fun sm => sm.args.getLast?) =
      (List.range' st.counter (menuCount menu)).map
        (fun i => some (make_fuzzel_cache_path env i preset)) := by
  match menu with
  | .mk fa fc idirs its =>
    rw [build_resolved_menu, menuCount]
    have hnext : ∀ args1 files1,
        (submenusM (ResolvedMenu.mk
            (args1 ++ ["--cache", make_fuzzel_cache_path env st.counter preset])
            (menu_input env (idirs ++ (List.map InheritanceFrame.icon_dirs stack.reverse).flatten) its)
            (build_items env its
              (stack ++ [⟨idirs, if fc.isEmpty = true then none else some st.counter⟩])
              ⟨st.counter + 1, files1⟩ preset).1)).map (fun sm => sm.args.getLast?) =
          (List.range' st.counter (1 + menuCountL its)).map
            (fun i => some (make_fuzzel_cache_path env i preset)) := by
      intro args1 files1
      rw [submenusM]
      rw [show (1 : Nat) + menuCountL its = menuCountL its + 1 by omega]
      rw [show List.range' st.counter (menuCountL its + 1) =
        st.counter :: List.range' (st.counter + 1) (menuCountL its) from rfl]
      rw [List.map_cons, List.map_cons]
      congr 1
      · simp [ResolvedMenu.args, getLast_append_pair]
      · exact build_items_cache_ids env its _ _ preset
    by_cases hfc : fc.isEmpty = true
    · rw [if_pos hfc]
      cases (List.filterMap InheritanceFrame.fuzzel_config_id stack).getLast? with
      | none => exact hnext fa st.files
      | some lc => exact hnext _ st.files
    · rw [if_neg hfc]
      exact hnext _ _
termination_by sizeOf menu

theorem build_items_cache_ids (env : Env) (items : List Item)
    (child_stack : List InheritanceFrame) (st : BuildState) (preset : String) :
    (submenusL (build_items env items child_stack st preset).1).map
        (fun sm => sm.args.getLast?) =
      (List.range' st.counter (menuCountL items)).map
        (fun i => some (make_fuzzel_cache_path env i preset)) := by
  match items with
  | [] =>
    rw [build_items, menuCountL]
    rfl
  | .mk n i (.menu child) :: rest =>
    rw [build_items, menuCountL]
    show (submenusL (ResolvedItem.menu (build_resolved_menu env child child_stack st preset).1 ::
        (build_items env rest child_stack
          (build_resolved_menu env child child_stack st preset).2 preset).1)).map _ = _
    rw [submenusL, List.map_append]
    rw [build_cache_ids env child child_stack st preset]
    rw [build_items_cache_ids env rest child_stack _ preset]
    rw [build_counter env child child_stack st preset]
    rw [show menuCount child + menuCountL rest = menuCountL rest + menuCount child by omega,
      ← List.range'_append_1 st.counter (menuCount child) (menuCountL rest), List.map_append]
  | .mk n i (.program p) :: rest =>
    rw [build_items, menuCountL]
    show (submenusL (ResolvedItem.program ⟨p.command⟩ ::
        (build_items env rest child_stack st preset).1)).map _ = _
    rw [submenusL]
    exact build_items_cache_ids env rest child_stack st preset
termination_by sizeOf items
end

/-- C5: within one compile every menu node receives its id from the shared
monotonically increasing counter in pre-order — a node takes the current
counter value before recursing into its children, so the root of a build
started at counter `c` gets `c` and the whole tree consumes exactly
`menuCount` consecutive ids `c, c+1, …` (observable through the per-menu
`--cache` path, always the last argument, which embeds the id): the id list
is `range' c (menuCount menu)`, which is duplicate-free and determined by
the AST alone. -/
theorem c5_preorder_distinct_ids (env : Env) (menu : Menu)
    (stack : List InheritanceFrame) (st : BuildState) (preset : String) :
    (build_resolved_menu env menu stack st preset).2.counter =
      st.counter + menuCount menu ∧
    (submenusM (build_resolved_menu env menu stack st preset).1).map
        (fun sm => sm.args.getLast?) =
      (List.range' st.counter (menuCount menu)).map
        (fun i => some (make_fuzzel_cache_path env i preset)) ∧
    (List.range' st.counter (menuCount menu)).Nodup :=
  ⟨build_counter env menu stack st preset,
   build_cache_ids env menu stack st preset,
   List.nodup_range' ..⟩

theorem except_bind_ok {α β γ : Type} {e : Except γ α} {k : α → Except γ β} {b : β}
    (h : (e >>= k) = .ok b) : ∃ a, e = .ok a ∧ k a = .ok b := by
  cases e with
  | error err => exact absurd h (by simp [Bind.bind, Except.bind])
  | ok a => exact ⟨a, rfl, by simpa [Bind.bind, Except.bind] using h⟩

/-- The node names `parse_menu_from_nodes` accepts at menu level (`icon`
included: it is skipped as "already parsed by parse_item_from_nodes" at
every menu level, the top-level document included). -/
def menuAllowed : List String :=
  ["fuzzel-args", "fuzzel-config", "icon-dir", "menu", "program", "icon"]

/-- The node names `parse_program_from_nodes` accepts at program level. -/
def programAllowed : List String := ["command", "icon"]

theorem parse_menu_go_names (home : String) :
    ∀ (ns : List KdlNode) (fa : List String) (fc : List (String × String))
      (idirs : List String) (its : List Item) (m : Menu),
      parse_menu_go home ns fa fc idirs its = .ok m →
      ∀ n ∈ ns, n.name ∈ menuAllowed := by
  intro ns
  induction ns with
  | nil =>
    intro _ _ _ _ _ _ n hn
    simp at hn
  | cons nd rest ih =>
    intro fa fc idirs its m h n hn
    cases nd with
    | mk nm nmSpan entries children span =>
      rw [parse_menu_go.eq_def] at h
      simp only [] at h
      rcases List.mem_cons.mp hn with rfl | hmem
      · by_cases hall : nm ∈ menuAllowed
        · simpa [KdlNode.name] using hall
        · exfalso
          simp only [menuAllowed, List.mem_cons, List.mem_singleton] at hall
          push_neg at hall
          obtain ⟨h1, h2, h3, h4, h5, h6, _⟩ := hall
          rw [if_neg h1, if_neg h2, if_neg h3, if_neg (by tauto), if_neg h6] at h
          exact Except.noConfusion h
      · by_cases h1 : nm = "fuzzel-args"
        · rw [if_pos h1] at h
          obtain ⟨_, _, h⟩ := except_bind_ok h
          obtain ⟨_, _, h⟩ := except_bind_ok h
          obtain ⟨_, _, h⟩ := except_bind_ok h
          exact ih _ _ _ _ _ h n hmem
        · rw [if_neg h1] at h
          by_cases h2 : nm = "fuzzel-config"
          · rw [if_pos h2] at h
            cases children with
            | none => exact Except.noConfusion h
            | some ch =>
              obtain ⟨_, _, h⟩ := except_bind_ok h
              obtain ⟨_, _, h⟩ := except_bind_ok h
              exact ih _ _ _ _ _ h n hmem
          · rw [if_neg h2] at h
            by_cases h3 : nm = "icon-dir"
            · rw [if_pos h3] at h
              obtain ⟨_, _, h⟩ := except_bind_ok h
              obtain ⟨_, _, h⟩ := except_bind_ok h
              obtain ⟨_, _, h⟩ := except_bind_ok h
              exact ih _ _ _ _ _ h n hmem
            · rw [if_neg h3] at h
              by_cases h45 : nm = "menu" ∨ nm = "program"
              · rw [if_pos h45] at h
                cases children with
                | none => exact Except.noConfusion h
                | some ch =>
                  obtain ⟨_, _, h⟩ := except_bind_ok h
                  obtain ⟨_, _, h⟩ := except_bind_ok h
                  obtain ⟨_, _, h⟩ := except_bind_ok h
                  exact ih _ _ _ _ _ h n hmem
              · rw [if_neg h45] at h
                by_cases h6 : nm = "icon"
                · rw [if_pos h6] at h
                  exact ih _ _ _ _ _ h n hmem
                · rw [if_neg h6] at h
                  exact Except.noConfusion h

theorem parse_program_go_names :
    ∀ (ns : List KdlNode) (acc cmd : List String),
      parse_program_go ns acc = .ok cmd →
      ∀ n ∈ ns, n.name ∈ programAllowed := by
  intro ns
  induction ns with
  | nil =>
    intro _ _ _ n hn
    simp at hn
  | cons nd rest ih =>
    intro acc cmd h n hn
    rw [parse_program_go] at h
    rcases List.mem_cons.mp hn with rfl | hmem
    · by_cases hall : n.name ∈ programAllowed
      · exact hall
      · exfalso
        simp only [programAllowed, List.mem_cons, List.mem_singleton] at hall
        push_neg at hall
        obtain ⟨ha, hb, _⟩ := hall
        rw [if_neg ha, if_neg hb] at h
        exact Except.noConfusion h
    · by_cases h1 : nd.name = "command"
      · rw [if_pos h1] at h
        obtain ⟨_, _, h⟩ := except_bind_ok h
        obtain ⟨_, _, h⟩ := except_bind_ok h
        obtain ⟨_, _, h⟩ := except_bind_ok h
        exact ih _ _ h n hmem
      · rw [if_neg h1] at h
        by_cases h2 : nd.name = "icon"
        · rw [if_pos h2] at h
          exact ih _ _ h n hmem
        · rw [if_neg h2] at h
          exact Except.noConfusion h

theorem parse_menu_unexpected_first (home : String) (n : KdlNode)
    (rest : List KdlNode) (dspan : Span) (hname : n.name ∉ menuAllowed) :
    parse_menu_from_nodes home (.mk (n :: rest) dspan) =
      .error ⟨n.span, "this", "unexpected node in menu: " ++ n.name⟩ := by
  cases n with
  | mk nm nmSpan entries children span =>
    simp only [menuAllowed, List.mem_cons, List.mem_singleton, KdlNode.name] at hname
    push_neg at hname
    obtain ⟨h1, h2, h3, h4, h5, h6, _⟩ := hname
    rw [parse_menu_from_nodes]
    rw [parse_menu_go.eq_def]
    simp only []
    rw [if_neg h1, if_neg h2, if_neg h3, if_neg (by tauto), if_neg h6]
    rfl

theorem parse_program_unexpected_first (n : KdlNode) (rest : List KdlNode)
    (dspan : Span) (hname : n.name ∉ programAllowed) :
    parse_program_from_nodes (.mk (n :: rest) dspan) =
      .error ⟨n.span, "this", "unexpected node in program: " ++ n.name⟩ := by
  simp only [programAllowed, List.mem_cons, List.mem_singleton] at hname
  push_neg at hname
  obtain ⟨h1, h2, _⟩ := hname
  rw [parse_program_from_nodes]
  rw [show (KdlDocument.mk (n :: rest) dspan).nodes = n :: rest from rfl]
  rw [parse_program_go]
  rw [if_neg h1, if_neg h2]
  rfl

/-- C6 (amended): at menu level the accepted node names are `fuzzel-args`,
`fuzzel-config`, `icon-dir`, `menu`, `program` — and also `icon`, which is
silently skipped ("already parsed by parse_item_from_nodes") at every menu
level including the top-level document, where it is not a child of any
item; at program level the accepted names are `command` and `icon`.  Every
node with any other name makes parsing fail, and when such a node comes
first the error carries exactly that node's source span. -/
theorem c6_unexpected_node_amended :
    (∀ (home : String) (doc : KdlDocument) (m : Menu),
        parse_menu_from_nodes home doc = .ok m →
        ∀ n ∈ doc.nodes, n.name ∈ menuAllowed) ∧
    (∀ (doc : KdlDocument) (p : Program),
        parse_program_from_nodes doc = .ok p →
        ∀ n ∈ doc.nodes, n.name ∈ programAllowed) ∧
    (∀ (home : String) (n : KdlNode) (rest : List KdlNode) (dspan : Span),
        n.name ∉ menuAllowed →
        parse_menu_from_nodes home (.mk (n :: rest) dspan) =
          .error ⟨n.span, "this", "unexpected node in menu: " ++ n.name⟩) ∧
    (∀ (n : KdlNode) (rest : List KdlNode) (dspan : Span),
        n.name ∉ programAllowed →
        parse_program_from_nodes (.mk (n :: rest) dspan) =
          .error ⟨n.span, "this", "unexpected node in program: " ++ n.name⟩) := by
  refine ⟨?_, ?_, parse_menu_unexpected_first, parse_program_unexpected_first⟩
  · intro home doc m h n hn
    cases doc with
    | mk ns dspan =>
      rw [parse_menu_from_nodes] at h
      exact parse_menu_go_names home ns [] [] [] [] m h n hn
  · intro doc p h n hn
    rw [parse_program_from_nodes] at h
    obtain ⟨cmd, hgo, _⟩ := except_bind_ok h
    exact parse_program_go_names doc.nodes [] cmd hgo n hn

/-- C6 counterexample: a top-level `icon` node is not a child of a menu or
program item — by the claim's allowed-literal sets it should be a hard
error — yet `parse_menu_from_nodes` silently accepts and ignores it, and
parsing succeeds with an empty menu. -/
theorem c6_unexpected_node_counterexample :
    parse_menu_from_nodes "/h" (.mk [.mk "icon" sp0 [strEntry "x"] none sp0] sp0) =
      .ok (.mk [] [] [] []) := by
  simp [parse_menu_from_nodes, parse_menu_go, sp0, strEntry]

/-- C6 witness: a node named `bogus` at the head of a menu-level document
fails with the unexpected-node error carrying exactly its span. -/
theorem c6_unexpected_node_witness :
    parse_menu_from_nodes "/h" (.mk [.mk "bogus" sp0 [] none ⟨3, 5⟩] sp0) =
      .error ⟨⟨3, 5⟩, "this", "unexpected node in menu: bogus"⟩ :=
  c6_unexpected_node_amended.2.2.1 "/h" (.mk "bogus" sp0 [] none ⟨3, 5⟩) [] sp0
    (by decide)

/-- C7: `get_computed_config` returns the previously cached ComputedConfig
unmodified exactly when the cache file exists, decodes successfully
(`read_cached_config` yields a value), and its stored truncated hash equals
the truncated SHA-256 hash of the current source bytes; a missing cache
file, a decode failure, or a hash mismatch is never a fatal error — the
result is then exactly the full recompute's. -/
theorem c7_cache_gate (env : Env) (cenv : CacheEnv) (doc : KdlDocument)
    (src_hash : List Nat) (preset : String) :
    (∀ cached, read_cached_config cenv = some cached →
        cached.hash = src_hash.take 8 →
        get_computed_config env cenv doc src_hash preset = .ok cached) ∧
    ((∀ cached, read_cached_config cenv = some cached →
        cached.hash ≠ src_hash.take 8) →
      get_computed_config env cenv doc src_hash preset =
        (compute_config env doc src_hash preset).map Prod.fst) := by
  constructor
  · intro cached hread hhash
    simp [get_computed_config, hread, hhash]
  · intro hmiss
    cases hread : read_cached_config cenv with
    | none => simp [get_computed_config, hread]
    | some cached => simp [get_computed_config, hread, hmiss cached hread]

/-- A cache environment whose single file decodes to a config stamped with
the current truncated hash. -/
def cfgC : ComputedConfig := ⟨hashX.take 8, ⟨[], "", 0⟩, []⟩

def cenvHit : CacheEnv := ⟨some [0], fun _ => some cfgC⟩

/-- C7 witness: on a valid hit the cached value is returned unmodified. -/
theorem c7_cache_gate_witness :
    get_computed_config envX cenvHit docOpen hashX "p" = .ok cfgC :=
  (c7_cache_gate envX cenvHit docOpen hashX "p").1 cfgC rfl rfl

/-- Byte-identical results of two runs with no usable cache: the two
returned configs are equal, each equals the full recompute, and the
recompute's hash, initial menu, items and synthetic-file log are
componentwise equal across runs. -/
def CacheIndependentDeterminism (env : Env) (cenv1 cenv2 : CacheEnv)
    (doc : KdlDocument) (src_hash : List Nat) (preset : String) : Prop :=
  get_computed_config env cenv1 doc src_hash preset =
      get_computed_config env cenv2 doc src_hash preset ∧
  get_computed_config env cenv1 doc src_hash preset =
      (compute_config env doc src_hash preset).map Prod.fst ∧
  (∀ cfg1 st1 cfg2 st2,
      compute_config env doc src_hash preset = .ok (cfg1, st1) →
      compute_config env doc src_hash preset = .ok (cfg2, st2) →
      cfg1.hash = cfg2.hash ∧ cfg1.initial_menu = cfg2.initial_menu ∧
        cfg1.items = cfg2.items ∧ st1.files = st2.files)

/-- C8: compiling the same source twice with an empty cache — under the same
environment and filesystem contents — yields byte-identical
`ComputedConfig` values: equal hashes, equal initial menus, equal items
arrays, and the same synthetic-config paths and contents (stable given the
fixed preset name and the deterministic id sequence). -/
theorem c8_determinism (env : Env) (cenv1 cenv2 : CacheEnv) (doc : KdlDocument)
    (src_hash : List Nat) (preset : String)
    (h1 : cenv1.cache_file = none) (h2 : cenv2.cache_file = none) :
    CacheIndependentDeterminism env cenv1 cenv2 doc src_hash preset := by
  have e1 : get_computed_config env cenv1 doc src_hash preset =
      (compute_config env doc src_hash preset).map Prod.fst := by
    simp [get_computed_config, read_cached_config, h1]
  have e2 : get_computed_config env cenv2 doc src_hash preset =
      (compute_config env doc src_hash preset).map Prod.fst := by
    simp [get_computed_config, read_cached_config, h2]
  refine ⟨e1.trans e2.symm, e1, ?_⟩
  intro cfg1 st1 cfg2 st2 hc1 hc2
  rw [hc1] at hc2
  injection hc2 with hpair
  injection hpair with ha hb
  subst ha
  subst hb
  exact ⟨rfl, rfl, rfl, rfl⟩

def cenvNone : CacheEnv := ⟨none, fun _ => none⟩

/-- C8 witness: the determinism statement at the concrete one-program
source with an empty cache. -/
theorem c8_determinism_witness :
    cenvNone.cache_file = none ∧
    CacheIndependentDeterminism envX cenvNone cenvNone docOpen hashX "p" :=
  ⟨rfl, c8_determinism envX cenvNone cenvNone docOpen hashX "p" rfl rfl⟩
